import Mathlib

/-!
Shallow embedding of `View_engagement_scraper_old.py` (a linear batch job:
Airtable paginated read → per-row URL parsing → YouTube statistics lookup →
batched Airtable write), together with theorems settling the frozen claims.

Python strings are modelled as `List Char` internally (`String` at the API
boundary).  The pieces of `urllib.parse` (`urlparse`, `parse_qs`, `unquote`
with its percent-to-bytes/UTF-8-replace decoding) and of the `int()` builtin
that the script relies on are translated from their CPython semantics.
Behaviour that depends on the full Unicode data tables or on the CPython
minor version — `urlsplit`'s NFKC netloc validation (≥ 3.7.3), its
bracketed-host validation (≥ 3.11), `int()`'s non-ASCII decimal digits and
non-ASCII whitespace — is not embedded; every theorem that quantifies over
inputs restricts them so that none of those paths can fire (ASCII and, where
raising is at issue, bracket-free), which makes the model exact on the
quantified domain in every CPython version.  Exceptions are modelled with
`Except Unit`.
-/

/-! ## Python string primitives -/

/-- Python `str.find`-style first-occurrence split at a single character:
`(s[:i], s[i+1:])` where `i` is the first index of `c`, and `(s, "")` when `c`
does not occur.  This is the combined effect of `s.split(c, 1)` as used by
`urlsplit` for `#` and `?`. -/
def pySplitOnce (c : Char) (l : List Char) : List Char × List Char :=
  (l.takeWhile (fun x => x != c), (l.dropWhile (fun x => x != c)).drop 1)

/-- Python `c in s` membership test for a single character. -/
def hasChar (c : Char) (l : List Char) : Bool :=
  l.any (fun x => x == c)

/-- Python `sub in s` substring test. -/
def occursSub (sub : List Char) : List Char → Bool
  | [] => sub.isEmpty
  | c :: t => sub.isPrefixOf (c :: t) || occursSub sub t

/-- First occurrence of substring `sep` in `l`: `some (before, after)` where
`l = before ++ sep ++ after` at the leftmost occurrence, `none` if absent. -/
def findSub (sep : List Char) : List Char → Option (List Char × List Char)
  | [] => if sep.isEmpty then some ([], []) else none
  | c :: t =>
    if sep.isPrefixOf (c :: t) then some ([], (c :: t).drop sep.length)
    else (findSub sep t).map (fun p => (c :: p.1, p.2))

/-- Fuel-driven worker for `splitSep`; each removed occurrence strictly
shortens the remainder, so `l.length + 1` units of fuel always suffice. -/
def splitSepGo (sep : List Char) : Nat → List Char → List (List Char)
  | 0, l => [l]
  | fuel + 1, l =>
    match findSub sep l with
    | none => [l]
    | some (a, b) => a :: splitSepGo sep fuel b

/-- Python `s.split(sep)` for a non-empty separator `sep`: repeated split at
each leftmost occurrence.  (CPython raises on an empty separator; the script
only ever splits on `"/live/"` and `"/"`, so the empty case is arbitrary.) -/
def splitSep (sep : List Char) (l : List Char) : List (List Char) :=
  if sep.isEmpty then [l] else splitSepGo sep (l.length + 1) l

/-- Python `s.strip(c)` for a single strip character. -/
def pyStripChar (c : Char) (l : List Char) : List Char :=
  ((l.dropWhile (fun x => x == c)).reverse.dropWhile (fun x => x == c)).reverse

/-- Hexadecimal digit test, for percent-decoding. -/
def isHexDig (c : Char) : Bool :=
  c.isDigit || ('a' ≤ c && c ≤ 'f') || ('A' ≤ c && c ≤ 'F')

/-- Hexadecimal digit value, for percent-decoding. -/
def hexVal (c : Char) : Nat :=
  if c.isDigit then c.toNat - 48
  else if 'a' ≤ c ∧ c ≤ 'f' then c.toNat - 87
  else c.toNat - 55

/-- ASCII character test (`str.isascii` / `_asciire` membership). -/
def isAsciiCh (c : Char) : Bool := c.toNat < 128

/-- CPython `unquote_to_bytes` on an ASCII chunk: scan left to right, turning
each `%` followed by two hex digits into one byte and keeping every other
character as its (ASCII) byte; an invalid escape keeps the `%` verbatim.
Fuel-driven: each step consumes at least one character, so `l.length` units
always suffice. -/
def percentBytesGo : Nat → List Char → List Nat
  | 0, l => l.map Char.toNat
  | fuel + 1, l =>
    match l with
    | [] => []
    | c :: t =>
      if c = '%' then
        match t with
        | a :: b :: t' =>
          if isHexDig a && isHexDig b then
            (16 * hexVal a + hexVal b) :: percentBytesGo fuel t'
          else c.toNat :: percentBytesGo fuel t
        | _ => c.toNat :: percentBytesGo fuel t
      else c.toNat :: percentBytesGo fuel t

def percentBytes (l : List Char) : List Nat :=
  percentBytesGo l.length l

/-- UTF-8 continuation byte (`0x80`–`0xBF`). -/
def contB (b : Nat) : Bool := 128 ≤ b && b ≤ 191

/-- The U+FFFD replacement character. -/
def replCh : Char := Char.ofNat 0xFFFD

/-- One step of CPython's UTF-8 decoder with `errors='replace'`: decode one
scalar from the lead byte `b` and the remaining bytes `t`, returning the
decoded character (U+FFFD for an ill-formed maximal subpart) and the
undecoded remainder.  The restricted continuation ranges for `E0/ED/F0/F4`
exclude overlong forms, surrogates and values above U+10FFFF, exactly as
CPython does; an invalid or truncated sequence consumes its valid prefix and
yields one replacement character. -/
def utf8Step (b : Nat) (t : List Nat) : Char × List Nat :=
  if b < 128 then (Char.ofNat b, t)
  else if 194 ≤ b ∧ b ≤ 223 then
    match t with
    | b1 :: t1 =>
      if contB b1 then (Char.ofNat ((b - 192) * 64 + (b1 - 128)), t1)
      else (replCh, b1 :: t1)
    | [] => (replCh, [])
  else if 224 ≤ b ∧ b ≤ 239 then
    let lo1 := if b = 224 then 160 else 128
    let hi1 := if b = 237 then 159 else 191
    match t with
    | b1 :: t1 =>
      if lo1 ≤ b1 ∧ b1 ≤ hi1 then
        match t1 with
        | b2 :: t2 =>
          if contB b2 then
            (Char.ofNat ((b - 224) * 4096 + (b1 - 128) * 64 + (b2 - 128)), t2)
          else (replCh, b2 :: t2)
        | [] => (replCh, [])
      else (replCh, b1 :: t1)
    | [] => (replCh, [])
  else if 240 ≤ b ∧ b ≤ 244 then
    let lo1 := if b = 240 then 144 else 128
    let hi1 := if b = 244 then 143 else 191
    match t with
    | b1 :: t1 =>
      if lo1 ≤ b1 ∧ b1 ≤ hi1 then
        match t1 with
        | b2 :: t2 =>
          if contB b2 then
            match t2 with
            | b3 :: t3 =>
              if contB b3 then
                (Char.ofNat ((b - 240) * 262144 + (b1 - 128) * 4096 +
                  (b2 - 128) * 64 + (b3 - 128)), t3)
              else (replCh, b3 :: t3)
            | [] => (replCh, [])
          else (replCh, b2 :: t2)
        | [] => (replCh, [])
      else (replCh, b1 :: t1)
    | [] => (replCh, [])
  else (replCh, t)

/-- CPython `bytes.decode('utf-8', errors='replace')`.  Fuel-driven: every
step consumes at least the lead byte, so `l.length` units always suffice. -/
def utf8ReplaceGo : Nat → List Nat → List Char
  | 0, _ => []
  | fuel + 1, l =>
    match l with
    | [] => []
    | b :: t => (utf8Step b t).1 :: utf8ReplaceGo fuel (utf8Step b t).2

def utf8Replace (l : List Nat) : List Char :=
  utf8ReplaceGo l.length l

/-- CPython `urllib.parse.unquote` with the default `utf-8`/`replace`
arguments: maximal ASCII runs are percent-decoded to bytes and UTF-8-decoded
with replacement (`_asciire` split + `unquote_to_bytes` + `bytes.decode`);
non-ASCII characters pass through verbatim.  Fuel-driven: each step consumes
at least one character. -/
def pyUnquoteRunsGo : Nat → List Char → List Char
  | 0, l => l
  | fuel + 1, l =>
    match l with
    | [] => []
    | c :: t =>
      if isAsciiCh c then
        utf8Replace (percentBytes ((c :: t).takeWhile isAsciiCh)) ++
          pyUnquoteRunsGo fuel ((c :: t).dropWhile isAsciiCh)
      else c :: pyUnquoteRunsGo fuel t

def pyUnquote (l : List Char) : List Char :=
  pyUnquoteRunsGo l.length l

/-- Python `urllib.parse.unquote_plus`: `+` becomes a space, then unquote. -/
def pyUnquotePlus (l : List Char) : List Char :=
  pyUnquote (l.map (fun c => if c = '+' then ' ' else c))

/-! ## `urllib.parse` model -/

/-- CPython `urlsplit` input sanitation: strip leading C0-control/space
characters, then remove every tab, carriage return and line feed. -/
def sanitizeUrl (l : List Char) : List Char :=
  (l.dropWhile (fun c => c.toNat ≤ 32)).filter
    (fun c => c != '\t' && c != '\r' && c != '\n')

/-- CPython `scheme_chars`: ASCII letters, digits, and `+`, `-`, `.`. -/
def isSchemeChar (c : Char) : Bool :=
  c.isAlphanum || c == '+' || c == '-' || c == '.'

/-- CPython `urlsplit` scheme removal: if the first `:` is preceded by a
non-empty run of scheme characters starting with a letter, drop through it
(the scheme itself is never used by the script). -/
def splitScheme (l : List Char) : List Char :=
  let pre := l.takeWhile (fun c => c != ':')
  if pre.length = l.length then l
  else if 0 < pre.length && (l.headD '0').isAlpha && pre.all isSchemeChar then
    (l.dropWhile (fun c => c != ':')).drop 1
  else l

/-- CPython `_splitnetloc`: when the remainder starts with `//`, the netloc
runs up to the first `/`, `?` or `#`; otherwise the netloc is empty. -/
def splitNetlocF (l : List Char) : List Char × List Char :=
  if l.take 2 = ['/', '/'] then
    let r := l.drop 2
    (r.takeWhile (fun c => !(c == '/' || c == '?' || c == '#')),
     r.dropWhile (fun c => !(c == '/' || c == '?' || c == '#')))
  else ([], l)

/-- CPython `urlsplit` bracket validation: a netloc containing `[` without `]`
(or vice versa) raises `ValueError("Invalid IPv6 URL")`. -/
def bracketBad (netloc : List Char) : Bool :=
  hasChar '[' netloc != hasChar ']' netloc

/-- CPython `_splitparams`: split the `;params` suffix off the last path
segment (only invoked when the path contains `;`). -/
def splitParamsF (l : List Char) : List Char × List Char :=
  if hasChar '/' l then
    let pre := (l.reverse.dropWhile (fun c => c != '/')).reverse
    let seg := (l.reverse.takeWhile (fun c => c != '/')).reverse
    if hasChar ';' seg then
      (pre ++ seg.takeWhile (fun c => c != ';'),
       (seg.dropWhile (fun c => c != ';')).drop 1)
    else (l, [])
  else if hasChar ';' l then
    (l.takeWhile (fun c => c != ';'), (l.dropWhile (fun c => c != ';')).drop 1)
  else (l, [])

/-- The components of `urlparse` that the script reads. -/
structure ParsedU where
  netloc : List Char
  path : List Char
  query : List Char
deriving DecidableEq

/-- Netloc as computed by `urlparse` before the bracket validation (exposed so
that the raising behaviour can be characterised). -/
def urlNetloc (s : String) : List Char :=
  (splitNetlocF (splitScheme (sanitizeUrl s.data))).1

/-- CPython `urllib.parse.urlparse`, restricted to the fields the script
reads; `Except.error ()` models the `ValueError` that every CPython version
raises on a netloc containing `[` without `]` or vice versa.  Two further,
input-dependent raise paths of `urlsplit` are deliberately not embedded
because they depend on the Unicode tables or the minor version: the NFKC
netloc validation (CPython ≥ 3.7.3, fires only on non-ASCII netlocs — the
`netloc.isascii()` early return makes ASCII netlocs exempt in every version)
and the bracketed-host validation (CPython ≥ 3.11, fires only when the
netloc contains a matched `[`…`]`).  Accordingly, no theorem below asserts
non-raising outside ASCII bracket-free URLs, on which this model is exact
for every CPython version. -/
def pyUrlparse (s : String) : Except Unit ParsedU :=
  let nr := splitNetlocF (splitScheme (sanitizeUrl s.data))
  if bracketBad nr.1 then .error ()
  else
    let fr := pySplitOnce '#' nr.2
    let qr := pySplitOnce '?' fr.1
    let pathParams := if hasChar ';' qr.1 then splitParamsF qr.1 else (qr.1, [])
    .ok ⟨nr.1, pathParams.1, qr.2⟩

/-- CPython `urllib.parse.parse_qsl` with default arguments: split the query
on `&`, keep only pairs with an `=` and a non-empty raw value, `+`/percent
decode names and values. -/
def parse_qsl (q : List Char) : List (List Char × List Char) :=
  if q = [] then []
  else
    (splitSep ['&'] q).filterMap (fun nv =>
      if nv = [] then none
      else
        let name := nv.takeWhile (fun c => c != '=')
        let value := (nv.dropWhile (fun c => c != '=')).drop 1
        if value = [] then none
        else some (pyUnquotePlus name, pyUnquotePlus value))

/-- `parse_qs(query).get('v', [None])[0]`: first kept value of the `v`
parameter, if any. -/
def vParam (q : List Char) : Option String :=
  (((parse_qsl q).filter (fun p => p.1 = ['v'])).head?).map (fun p => String.mk p.2)

/-! ## `extract_video_id` -/

def shortHost : List Char := "youtu.be".data
def mainHost : List Char := "youtube.com".data
def liveSeg : List Char := "/live/".data

/-- `extract_video_id` from the script.  `Except.error ()` models an escaping
exception (from `urlparse`); `Option.none` models returning Python `None`. -/
def extract_video_id (url : Option String) : Except Unit (Option String) :=
  match url with
  | none => .ok none
  | some s =>
    if s = "" then .ok none
    else
      match pyUrlparse s with
      | .error e => .error e
      | .ok p =>
        if occursSub shortHost p.netloc then
          .ok (some (String.mk (pyStripChar '/' p.path)))
        else if occursSub mainHost p.netloc && liveSeg.isPrefixOf p.path then
          .ok (some (String.mk
            ((splitSep ['/'] ((splitSep liveSeg p.path).getLastD [])).headD [])))
        else if occursSub mainHost p.netloc then
          .ok (vParam p.query)
        else .ok none

/-! ## `get_youtube_stats` -/

/-- JSON scalar as it reaches the `int()` calls: the live API encodes the
counters as strings, but an integer value is also representable. -/
inductive JVal where
  | jstr (s : String)
  | jnum (n : Int)
deriving DecidableEq

/-- One element of the response's `items` array, reduced to the
`statistics` sub-object the script reads (a key → value mapping). -/
structure YTItem where
  statistics : List (String × JVal)
deriving DecidableEq

/-- A response of the statistics endpoint: HTTP status plus parsed body.
`items = none` models a body without an `"items"` key. -/
structure YTResponse where
  status_code : Nat
  items : Option (List YTItem)
deriving DecidableEq

/-- ASCII whitespace in the sense of Python's `str.isspace` (the set `int()`
strips): `0x09`–`0x0D`, `0x1C`–`0x1F` and space. -/
def isPySpace (c : Char) : Bool :=
  (9 ≤ c.toNat && c.toNat ≤ 13) || (28 ≤ c.toNat && c.toNat ≤ 32)

/-- Digit run with PEP 515 underscore grouping: digits with single
underscores permitted only between digits (`1_0` parses, `_1`, `1_`, `1__0`
do not).  Fuel-driven: each step consumes at least one character. -/
def digitsUndGo : Nat → Int → List Char → Option Int
  | 0, acc, l => if l = [] then some acc else none
  | fuel + 1, acc, l =>
    match l with
    | [] => some acc
    | c :: t =>
      if c.isDigit then digitsUndGo fuel (acc * 10 + ((c.toNat - 48 : Nat) : Int)) t
      else if c = '_' then
        match t with
        | d :: t' =>
          if d.isDigit then
            digitsUndGo fuel (acc * 10 + ((d.toNat - 48 : Nat) : Int)) t'
          else none
        | [] => none
      else none

/-- A digit run must be non-empty and start with a digit. -/
def digitsUnd (ds : List Char) : Option Int :=
  match ds with
  | [] => none
  | c :: _ => if c.isDigit then digitsUndGo ds.length 0 ds else none

/-- Python `int(s)` on a string, modelled for ASCII inputs: strip the
`str.isspace` whitespace characters, allow one optional sign, then a
non-empty digit run with PEP 515 underscore grouping; anything else raises
`ValueError` (`none`).  CPython additionally accepts non-ASCII decimal
digits and non-ASCII whitespace (Unicode-table-driven); the raising
characterisation below therefore restricts statistics values to ASCII. -/
def pyIntOfStr (s : String) : Option Int :=
  let t := ((s.data.dropWhile isPySpace).reverse.dropWhile isPySpace).reverse
  match t with
  | '+' :: ds => digitsUnd ds
  | '-' :: ds => (digitsUnd ds).map (fun n => -n)
  | ds => digitsUnd ds

/-- Python `int(v)` on a value read out of the parsed JSON. -/
def pyIntJ : JVal → Option Int
  | .jnum n => some n
  | .jstr s => pyIntOfStr s

/-- Python `dict.get(k, d)` on the statistics mapping. -/
def dictGetD (st : List (String × JVal)) (k : String) (d : JVal) : JVal :=
  match st.find? (fun p => p.1 == k) with
  | some p => p.2
  | none => d

/-- Engagement counters as built by `get_youtube_stats`. -/
structure EngagementStats where
  views : Int
  likes : Int
  comments : Int
deriving DecidableEq

/-- `get_youtube_stats` from the script, as a function of the (abstracted)
HTTP response.  `Except.error ()` models the `ValueError` that `int()` raises
on a present but malformed counter value. -/
def get_youtube_stats (r : YTResponse) : Except Unit (Option EngagementStats) :=
  if r.status_code ≠ 200 then .ok none
  else
    match r.items with
    | some (it :: _) =>
      match pyIntJ (dictGetD it.statistics "viewCount" (.jnum 0)),
            pyIntJ (dictGetD it.statistics "likeCount" (.jnum 0)),
            pyIntJ (dictGetD it.statistics "commentCount" (.jnum 0)) with
      | some v, some lk, some cm => .ok (some ⟨v, lk, cm⟩)
      | _, _, _ => .error ()
    | _ => .ok none

/-! ## `get_airtable_records` -/

/-- One Airtable record as the script reads it: the `id` plus the single
field the loop looks at (`fields.get("Asset Link")`; `none` also covers a
record without a `fields` object). -/
structure AtRecord where
  id : String
  assetLink : Option String
deriving DecidableEq

/-- One page of the paginated listing response.  `records = none` models a
body without a `"records"` key; `offset` is the continuation cursor. -/
structure AtPage where
  records : Option (List AtRecord)
  offset : Option String
deriving DecidableEq

/-- The `while True` pagination loop of `get_airtable_records`, with the
server abstracted as a function from the request's `offset` parameter to the
page returned, and an explicit fuel bound (`none` = the loop did not finish
within `fuel` requests). -/
def fetchGo (server : Option String → AtPage) :
    Nat → Option String → List AtRecord → Option (List AtRecord)
  | 0, _, _ => none
  | fuel + 1, off, acc =>
    let data := server off
    let batch := data.records.getD []
    let acc2 := acc ++ batch
    match data.offset with
    | none => some acc2
    | some s => if s = "" then some acc2 else fetchGo server fuel (some s) acc2

/-- `get_airtable_records` from the script. -/
def get_airtable_records (server : Option String → AtPage) (fuel : Nat) :
    Option (List AtRecord) :=
  fetchGo server fuel none []

/-! ## `batch_update_airtable` -/

/-- One update entry as appended by `main` (the `fields` sub-object is
flattened into the three counters it always contains). -/
structure UpdateEntry where
  id : String
  views : Int
  likes : Int
  comments : Int
deriving DecidableEq

/-- The slices `records_to_update[i:i+10]` for `i in range(0, len, 10)`. -/
def batchSlices (l : List UpdateEntry) : List (List UpdateEntry) :=
  (List.range ((l.length + 9) / 10)).map (fun k => (l.drop (10 * k)).take 10)

/-- Observable actions of `batch_update_airtable`: a PATCH request carrying a
batch, or the fixed 250 ms pause. -/
inductive WEvent where
  | patch (batch : List UpdateEntry)
  | sleep250
deriving DecidableEq

/-- The event trace of `batch_update_airtable`: for each slice, one PATCH
followed by one `time.sleep(0.25)`. -/
def writerTrace (l : List UpdateEntry) : List WEvent :=
  ((batchSlices l).map (fun b => [WEvent.patch b, WEvent.sleep250])).flatten

/-- The PATCH payloads of the trace, in order. -/
def writeRequests (l : List UpdateEntry) : List (List UpdateEntry) :=
  (writerTrace l).filterMap (fun e =>
    match e with
    | .patch b => some b
    | .sleep250 => none)

def isSleep : WEvent → Bool
  | .sleep250 => true
  | .patch _ => false

/-! ## `main`'s per-record loop -/

/-- The accumulation loop of `main`, with the statistics lookup abstracted as
a function from video id to the lookup's outcome (`Except.error ()` = the
lookup raised, `ok none` = it returned `None`, `ok (some s)` = success).  An
escaping exception aborts the whole run. -/
def runUpdates (lookup : String → Except Unit (Option EngagementStats)) :
    List AtRecord → Except Unit (List UpdateEntry)
  | [] => .ok []
  | r :: rest =>
    match r.assetLink with
    | none => runUpdates lookup rest
    | some u =>
      if u = "" then runUpdates lookup rest
      else
        match extract_video_id (some u) with
        | .error e => .error e
        | .ok none => runUpdates lookup rest
        | .ok (some v) =>
          if v = "" then runUpdates lookup rest
          else
            match lookup v with
            | .error e => .error e
            | .ok none => runUpdates lookup rest
            | .ok (some s) =>
              match runUpdates lookup rest with
              | .error e => .error e
              | .ok us => .ok (⟨r.id, s.views, s.likes, s.comments⟩ :: us)

/-- Declarative per-record outcome, following the invariant's wording (as
amended): an entry is produced exactly when the URL field is present, the
extractor succeeds with a non-null and non-empty identifier, and the lookup
succeeds. -/
def specEntry (lookup : String → Except Unit (Option EngagementStats))
    (r : AtRecord) : Option UpdateEntry :=
  match r.assetLink with
  | none => none
  | some u =>
    match extract_video_id (some u) with
    | .ok (some v) =>
      if v = "" then none
      else
        match lookup v with
        | .ok (some s) => some ⟨r.id, s.views, s.likes, s.comments⟩
        | _ => none
    | _ => none

/-- ASCII, bracket-free character.  On URLs made only of such characters no
CPython version's `urlparse` takes any of its validation-raise paths (the
NFKC check early-returns on ASCII netlocs, the bracket checks need a
bracket), so the model's non-raising on this domain is exact. -/
def cleanUrlChar (c : Char) : Bool :=
  c.toNat < 128 && c != '[' && c != ']'

/-- No step of the run can raise: every present URL consists of ASCII
bracket-free characters — the domain on which `urlparse` raises in no
CPython version — and the lookup does not raise on any identifier the loop
reaches. -/
def noRaise (lookup : String → Except Unit (Option EngagementStats))
    (l : List AtRecord) : Prop :=
  ∀ r ∈ l, ∀ u, r.assetLink = some u →
    (∀ c ∈ u.data, cleanUrlChar c = true) ∧
    ∀ v, extract_video_id (some u) = .ok (some v) → v ≠ "" →
      lookup v ≠ .error ()

/-- Identifier-shaped character: ASCII digit, letter, `-` or `_` — the
alphabet of YouTube video identifiers, delimiting the `<id>` place-holder in
the spec's URL shapes. -/
def goodChar (c : Char) : Bool :=
  (48 ≤ c.toNat && c.toNat ≤ 57) || (65 ≤ c.toNat && c.toNat ≤ 90) ||
    (97 ≤ c.toNat && c.toNat ≤ 122) || c == '-' || c == '_'

/-! ## Helper lemmas: lists and characters -/

theorem findSub_some_length {sep : List Char} (hsep : sep ≠ []) :
    ∀ {l a b : List Char}, findSub sep l = some (a, b) → b.length < l.length := by
  intro l
  induction l with
  | nil =>
    intro a b h
    simp only [findSub] at h
    rw [if_neg (by simpa using hsep)] at h
    exact absurd h (by simp)
  | cons c t ih =>
    intro a b h
    simp only [findSub] at h
    by_cases hp : sep.isPrefixOf (c :: t)
    · rw [if_pos hp] at h
      obtain ⟨rfl, rfl⟩ : ([] : List Char) = a ∧ (c :: t).drop sep.length = b := by
        simpa using h
      have : sep.length ≠ 0 := by simpa using hsep
      simp only [List.length_drop, List.length_cons]
      omega
    · rw [if_neg hp] at h
      match hf : findSub sep t with
      | none => rw [hf] at h; exact absurd h (by simp)
      | some (a', b') =>
        rw [hf] at h
        obtain ⟨rfl, rfl⟩ : c :: a' = a ∧ b' = b := by simpa using h
        have := ih hf
        simp only [List.length_cons]
        omega

theorem splitSepGo_congr {sep : List Char} (hsep : sep ≠ []) :
    ∀ f₁ f₂ l, l.length < f₁ → l.length < f₂ →
      splitSepGo sep f₁ l = splitSepGo sep f₂ l := by
  intro f₁
  induction f₁ with
  | zero => intro f₂ l h₁ h₂; exact absurd h₁ (Nat.not_lt_zero _)
  | succ f ih =>
    intro f₂ l h₁ h₂
    match f₂, h₂ with
    | f₂ + 1, _ =>
      simp only [splitSepGo]
      cases hf : findSub sep l with
      | none => rfl
      | some p =>
        obtain ⟨a, b⟩ := p
        have hb := findSub_some_length hsep hf
        exact congrArg (List.cons a) (ih f₂ b (by omega) (by omega))

theorem splitSep_rec {sep l a b : List Char} (hsep : sep ≠ [])
    (h : findSub sep l = some (a, b)) :
    splitSep sep l = a :: splitSep sep b := by
  have hb := findSub_some_length hsep h
  have hne : ¬ (sep.isEmpty = true) := by simpa using hsep
  unfold splitSep
  rw [if_neg hne, if_neg hne,
    splitSepGo_congr hsep (b.length + 1) l.length b (by omega) (by omega)]
  simp only [splitSepGo, h]

theorem splitSep_of_none {sep l : List Char} (hsep : sep ≠ [])
    (h : findSub sep l = none) : splitSep sep l = [l] := by
  have hne : ¬ (sep.isEmpty = true) := by simpa using hsep
  unfold splitSep
  rw [if_neg hne]
  simp only [splitSepGo, h]

theorem takeWhile_all {p : Char → Bool} :
    ∀ {l : List Char}, (∀ c ∈ l, p c = true) → l.takeWhile p = l := by
  intro l
  induction l with
  | nil => intro _; rfl
  | cons c t ih =>
    intro h
    simp [List.takeWhile_cons, h c (by simp), ih (fun x hx => h x (by simp [hx]))]

theorem dropWhile_all {p : Char → Bool} :
    ∀ {l : List Char}, (∀ c ∈ l, p c = true) → l.dropWhile p = [] := by
  intro l
  induction l with
  | nil => intro _; rfl
  | cons c t ih =>
    intro h
    simp only [List.dropWhile_cons, h c (by simp)]
    exact ih (fun x hx => h x (by simp [hx]))

theorem takeWhile_append_stop {p : Char → Bool} {x : Char} (hx : p x = false) :
    ∀ {a : List Char} (b : List Char), (∀ c ∈ a, p c = true) →
      (a ++ x :: b).takeWhile p = a := by
  intro a
  induction a with
  | nil => intro b _; simp [List.takeWhile_cons, hx]
  | cons c t ih =>
    intro b h
    simp [List.cons_append, List.takeWhile_cons, h c (by simp),
      ih b (fun y hy => h y (by simp [hy]))]

theorem dropWhile_append_stop {p : Char → Bool} {x : Char} (hx : p x = false) :
    ∀ {a : List Char} (b : List Char), (∀ c ∈ a, p c = true) →
      (a ++ x :: b).dropWhile p = x :: b := by
  intro a
  induction a with
  | nil => intro b _; simp [List.dropWhile_cons, hx]
  | cons c t ih =>
    intro b h
    simp only [List.cons_append, List.dropWhile_cons, h c (by simp)]
    exact ih b (fun y hy => h y (by simp [hy]))

theorem dropWhile_nohit {p : Char → Bool} {l : List Char}
    (h : ∀ c ∈ l, p c = false) : l.dropWhile p = l := by
  cases l with
  | nil => rfl
  | cons c t => simp [List.dropWhile_cons, h c (by simp)]

theorem hasChar_false {c : Char} {l : List Char} (h : ∀ x ∈ l, x ≠ c) :
    hasChar c l = false := by
  simp only [hasChar, List.any_eq_false]
  intro x hx
  simpa using h x hx

theorem isPrefixOf_append_self : ∀ (a b : List Char), a.isPrefixOf (a ++ b) = true := by
  intro a b
  induction a with
  | nil => simp [List.isPrefixOf]
  | cons c t ih => simp [List.isPrefixOf, ih]

theorem char_ne_of_toNat {c d : Char} {n : Nat} (hd : d.toNat = n)
    (h : c.toNat ≠ n) : c ≠ d := by
  intro hc
  exact h (by rw [hc, hd])

theorem goodChar_spec {c : Char} (h : goodChar c = true) :
    32 < c.toNat ∧ c ≠ ':' ∧ c ≠ '/' ∧ c ≠ '?' ∧ c ≠ '#' ∧ c ≠ ';' ∧
      c ≠ '[' ∧ c ≠ ']' ∧ c ≠ '\t' ∧ c ≠ '\r' ∧ c ≠ '\n' := by
  have h' : (48 ≤ c.toNat ∧ c.toNat ≤ 57) ∨ (65 ≤ c.toNat ∧ c.toNat ≤ 90) ∨
      (97 ≤ c.toNat ∧ c.toNat ≤ 122) ∨ c = '-' ∨ c = '_' := by
    simpa [goodChar, Bool.or_eq_true, Bool.and_eq_true, decide_eq_true_eq,
      beq_iff_eq, or_assoc] using h
  have hval : 32 < c.toNat ∧ c.toNat ≠ 58 ∧ c.toNat ≠ 47 ∧ c.toNat ≠ 63 ∧
      c.toNat ≠ 35 ∧ c.toNat ≠ 59 ∧ c.toNat ≠ 91 ∧ c.toNat ≠ 93 ∧
      c.toNat ≠ 9 ∧ c.toNat ≠ 13 ∧ c.toNat ≠ 10 := by
    rcases h' with h | h | h | rfl | rfl
    · omega
    · omega
    · omega
    · refine ⟨by decide, ?_⟩; decide
    · refine ⟨by decide, ?_⟩; decide
  obtain ⟨h1, h2, h3, h4, h5, h6, h7, h8, h9, h10, h11⟩ := hval
  exact ⟨h1, char_ne_of_toNat (by decide) h2, char_ne_of_toNat (by decide) h3,
    char_ne_of_toNat (by decide) h4, char_ne_of_toNat (by decide) h5,
    char_ne_of_toNat (by decide) h6, char_ne_of_toNat (by decide) h7,
    char_ne_of_toNat (by decide) h8, char_ne_of_toNat (by decide) h9,
    char_ne_of_toNat (by decide) h10, char_ne_of_toNat (by decide) h11⟩

theorem findSub_at_self {sep tail : List Char} (hsep : sep ≠ []) :
    findSub sep (sep ++ tail) = some ([], tail) := by
  cases sep with
  | nil => exact absurd rfl hsep
  | cons c cs =>
    rw [List.cons_append]
    simp only [findSub]
    rw [if_pos (by rw [← List.cons_append]; exact isPrefixOf_append_self _ _)]
    rw [← List.cons_append, List.drop_left]

theorem findSub_single {x : Char} {b : List Char} :
    ∀ {a : List Char}, x ∉ a → findSub [x] (a ++ x :: b) = some (a, b) := by
  intro a
  induction a with
  | nil =>
    intro _
    simp only [List.nil_append, findSub]
    rw [if_pos (by simp [List.isPrefixOf])]
    simp
  | cons c t ih =>
    intro h
    have hcx : ¬ (c = x) := by intro hq; exact h (by simp [hq])
    simp only [List.cons_append, findSub, List.append_eq]
    rw [if_neg (by simp [List.isPrefixOf]; intro hq; exact absurd hq.symm hcx)]
    rw [ih (fun hx => h (by simp [hx]))]
    simp

theorem findSub_none_of_nooccur {sep : List Char} (hsep : sep ≠ []) :
    ∀ {l : List Char}, occursSub sep l = false → findSub sep l = none := by
  intro l
  induction l with
  | nil =>
    intro _
    have h0 : sep.isEmpty = false := by
      cases sep with
      | nil => exact absurd rfl hsep
      | cons a t => rfl
    simp [findSub, h0]
  | cons c t ih =>
    intro h
    simp only [occursSub, Bool.or_eq_false_iff] at h
    simp [findSub, h.1, ih h.2]

theorem percentBytes_ne_nil {l : List Char} (h : l ≠ []) : percentBytes l ≠ [] := by
  match l with
  | [] => exact absurd rfl h
  | c :: t =>
    simp only [percentBytes, List.length_cons, percentBytesGo]
    split
    · split
      · split <;> simp
      · simp
    · simp

theorem utf8Replace_ne_nil {l : List Nat} (h : l ≠ []) : utf8Replace l ≠ [] := by
  match l with
  | [] => exact absurd rfl h
  | b :: t => simp [utf8Replace, List.length_cons, utf8ReplaceGo]

theorem pyUnquote_ne_nil : ∀ {l : List Char}, l ≠ [] → pyUnquote l ≠ [] := by
  intro l h
  match l with
  | [] => exact absurd rfl h
  | c :: t =>
    simp only [pyUnquote, List.length_cons, pyUnquoteRunsGo]
    by_cases hA : isAsciiCh c = true
    · rw [if_pos hA]
      intro hc
      rcases List.append_eq_nil.mp hc with ⟨h1, -⟩
      have hrun : (c :: t).takeWhile isAsciiCh = c :: t.takeWhile isAsciiCh := by
        simp [List.takeWhile_cons, hA]
      exact utf8Replace_ne_nil (percentBytes_ne_nil (by simp [hrun])) h1
    · rw [if_neg hA]
      simp

theorem pyUnquotePlus_ne_nil {l : List Char} (h : l ≠ []) : pyUnquotePlus l ≠ [] := by
  unfold pyUnquotePlus
  exact pyUnquote_ne_nil (by simpa using h)

theorem parse_qsl_snd_ne_nil {q : List Char} :
    ∀ p ∈ parse_qsl q, p.2 ≠ [] := by
  intro p hp
  unfold parse_qsl at hp
  split at hp
  · exact absurd hp (by simp)
  · obtain ⟨nv, _, hnv⟩ := List.mem_filterMap.mp hp
    by_cases h1 : nv = []
    · rw [if_pos h1] at hnv; exact absurd hnv (by simp)
    · rw [if_neg h1] at hnv
      by_cases h2 : (nv.dropWhile (fun c => c != '=')).drop 1 = []
      · rw [if_pos h2] at hnv; exact absurd hnv (by simp)
      · rw [if_neg h2] at hnv
        obtain rfl : (pyUnquotePlus (nv.takeWhile (fun c => c != '=')),
            pyUnquotePlus ((nv.dropWhile (fun c => c != '=')).drop 1)) = p := by
          simpa using hnv
        exact pyUnquotePlus_ne_nil h2

theorem vParam_ne_empty {q : List Char} {v : String} (h : vParam q = some v) :
    v ≠ "" := by
  unfold vParam at h
  match hh : ((parse_qsl q).filter (fun p => p.1 = ['v'])).head? with
  | none => rw [hh] at h; exact absurd h (by simp)
  | some p =>
    rw [hh] at h
    obtain rfl : String.mk p.2 = v := by simpa using h
    have hpm : p ∈ parse_qsl q :=
      List.mem_of_mem_filter (List.mem_of_mem_head? hh)
    have := parse_qsl_snd_ne_nil p hpm
    intro hc
    exact this (by simpa [String.ext_iff] using hc)

/-! ## Helper lemmas: URL-parsing pipeline on the spec's URL shapes -/

theorem sanitize_id {l : List Char} (h : ∀ c ∈ l, 32 < c.toNat) :
    sanitizeUrl l = l := by
  unfold sanitizeUrl
  rw [dropWhile_nohit (fun c hc => by have := h c hc; simp; omega)]
  rw [List.filter_eq_self.mpr]
  intro c hc
  have h32 := h c hc
  have t1 : c ≠ '\t' := char_ne_of_toNat (by decide) (show c.toNat ≠ 9 by omega)
  have t2 : c ≠ '\r' := char_ne_of_toNat (by decide) (show c.toNat ≠ 13 by omega)
  have t3 : c ≠ '\n' := char_ne_of_toNat (by decide) (show c.toNat ≠ 10 by omega)
  simp [t1, t2, t3]

theorem splitScheme_https (rest : List Char) :
    splitScheme ("https".data ++ ':' :: rest) = rest := by
  have htake : ("https".data ++ ':' :: rest).takeWhile (fun c => c != ':') = "https".data :=
    takeWhile_append_stop (by decide) rest (by decide)
  have hdrop : ("https".data ++ ':' :: rest).dropWhile (fun c => c != ':') = ':' :: rest :=
    dropWhile_append_stop (by decide) rest (by decide)
  unfold splitScheme
  simp only [htake, hdrop]
  rw [if_neg (by simp only [List.length_append, List.length_cons]; omega)]
  rw [if_pos (by rw [show ("https".data ++ ':' :: rest).headD '0' = 'h' from rfl]; decide)]
  simp

theorem splitNetloc_shape (host tail : List Char)
    (hh : ∀ c ∈ host, (!(c == '/' || c == '?' || c == '#')) = true) :
    splitNetlocF ('/' :: '/' :: (host ++ '/' :: tail)) = (host, '/' :: tail) := by
  unfold splitNetlocF
  rw [if_pos (by simp)]
  simp only [List.drop_succ_cons, List.drop_zero]
  rw [takeWhile_append_stop (by decide) tail hh]
  rw [dropWhile_append_stop (by decide) tail hh]

theorem pySplitOnce_nohit {c : Char} {l : List Char} (h : ∀ x ∈ l, x ≠ c) :
    pySplitOnce c l = (l, []) := by
  unfold pySplitOnce
  rw [takeWhile_all (fun x hx => by simpa using h x hx)]
  rw [dropWhile_all (fun x hx => by simpa using h x hx)]
  rfl

theorem pyUrlparse_https {s : String} (host tail : List Char)
    (hs : s.data = "https://".data ++ (host ++ '/' :: tail))
    (hh : ∀ c ∈ host, 32 < c.toNat ∧ c ≠ '/' ∧ c ≠ '?' ∧ c ≠ '#' ∧ c ≠ '[' ∧ c ≠ ']')
    (ht : ∀ c ∈ tail, 32 < c.toNat ∧ c ≠ '#' ∧ c ≠ '?' ∧ c ≠ ';') :
    pyUrlparse s = .ok ⟨host, '/' :: tail, []⟩ := by
  have hsan : sanitizeUrl ("https://".data ++ (host ++ '/' :: tail)) =
      "https://".data ++ (host ++ '/' :: tail) := by
    apply sanitize_id
    intro c hc
    rcases List.mem_append.mp hc with h1 | h1
    · exact (by decide : ∀ c ∈ "https://".data, 32 < c.toNat) c h1
    · rcases List.mem_append.mp h1 with h2 | h2
      · exact (hh c h2).1
      · rcases List.mem_cons.mp h2 with rfl | h3
        · decide
        · exact (ht c h3).1
  have hshape : "https://".data ++ (host ++ '/' :: tail) =
      "https".data ++ ':' :: ('/' :: '/' :: (host ++ '/' :: tail)) := by
    simp
  have hnet := splitNetloc_shape host tail (fun c hc => by
    obtain ⟨-, h1, h2, h3, -, -⟩ := hh c hc
    simp [h1, h2, h3])
  have hbr : bracketBad host = false := by
    unfold bracketBad
    rw [hasChar_false (fun x hx => (hh x hx).2.2.2.2.1),
      hasChar_false (fun x hx => (hh x hx).2.2.2.2.2)]
    rfl
  have hfrag : pySplitOnce '#' ('/' :: tail) = ('/' :: tail, []) :=
    pySplitOnce_nohit (by
      intro x hx
      rcases List.mem_cons.mp hx with rfl | hx
      · decide
      · exact (ht x hx).2.1)
  have hq : pySplitOnce '?' ('/' :: tail) = ('/' :: tail, []) :=
    pySplitOnce_nohit (by
      intro x hx
      rcases List.mem_cons.mp hx with rfl | hx
      · decide
      · exact (ht x hx).2.2.1)
  have hsemi : hasChar ';' ('/' :: tail) = false :=
    hasChar_false (by
      intro x hx
      rcases List.mem_cons.mp hx with rfl | hx
      · decide
      · exact (ht x hx).2.2.2)
  unfold pyUrlparse
  rw [hs, hsan, hshape, splitScheme_https, hnet]
  simp [hbr, hfrag, hq, hsemi]

theorem pyStripChar_slash {vid : List Char} (h : ∀ c ∈ vid, c ≠ '/') :
    pyStripChar '/' ('/' :: vid) = vid := by
  unfold pyStripChar
  have h1 : ('/' :: vid).dropWhile (fun x => x == '/') = vid := by
    rw [List.dropWhile_cons]
    rw [if_pos (by decide)]
    exact dropWhile_nohit (fun c hc => by simpa using h c hc)
  rw [h1]
  rw [dropWhile_nohit (fun c hc => by simpa using h c (List.mem_reverse.mp hc))]
  exact List.reverse_reverse vid

/-! ## Claim theorems -/

/-- Claim C8 (confirmed): for every URL of the short-link form
`https://youtu.be/<id>` with `<id>` made of identifier characters, the
extractor returns exactly `<id>`, and `<id>` contains no slash. -/
theorem C8_shortlink_extract (vid : String) (h : ∀ c ∈ vid.data, goodChar c = true) :
    extract_video_id (some ("https://youtu.be/" ++ vid)) = .ok (some vid) ∧
      '/' ∉ vid.data := by
  have hg := fun c hc => goodChar_spec (h c hc)
  have hs : ("https://youtu.be/" ++ vid).data =
      "https://".data ++ ("youtu.be".data ++ '/' :: vid.data) := by
    rw [String.data_append]
    rfl
  have hparse := pyUrlparse_https "youtu.be".data vid.data hs
    (by decide)
    (fun c hc => ⟨(hg c hc).1, (hg c hc).2.2.2.2.1, (hg c hc).2.2.2.1,
      (hg c hc).2.2.2.2.2.1⟩)
  have hne : ("https://youtu.be/" ++ vid) ≠ "" := by
    intro he
    rw [String.ext_iff, hs] at he
    simp at he
  constructor
  · simp only [extract_video_id]
    rw [if_neg hne, hparse]
    have hocc : occursSub shortHost "youtu.be".data = true := by decide
    simp only [hocc, if_true]
    rw [pyStripChar_slash (fun c hc => (hg c hc).2.2.1)]
  · intro hm
    exact absurd rfl (hg '/' hm).2.2.1

/-- Claim C8 witness: a concrete short-link URL. -/
theorem C8_shortlink_extract_witness :
    extract_video_id (some ("https://youtu.be/" ++ "dQw4w9WgXcQ")) =
      .ok (some "dQw4w9WgXcQ") ∧ '/' ∉ "dQw4w9WgXcQ".data :=
  C8_shortlink_extract "dQw4w9WgXcQ" (by decide)

/-- Claim C4 counterexample: for the main-domain URL
`https://youtube.com/live/abc/live/x` — whose path begins with a `/live/`
segment, the segment immediately following `/live/` being `abc` (it is of the
form `https://<maindomain>/live/<id>/extra` with `<id> = abc`,
`extra = live/x`) — the extractor returns `x`, not `abc`: the code splits on
the LAST occurrence of `/live/`. -/
theorem C4_live_counterexample :
    extract_video_id (some "https://youtube.com/live/abc/live/x") = .ok (some "x") ∧
      ("x" : String) ≠ "abc" := ⟨rfl, by decide⟩

/-- Claim C4 (amended): for main-domain URLs whose path begins with `/live/`,
the extractor returns the path segment immediately following the last
occurrence of `/live/`; in particular, for
`https://youtube.com/live/<id>/<extra>` where the remainder after the leading
`/live/` contains no further occurrence of `/live/`, it returns exactly
`<id>`. -/
theorem C4_live_extract (vid extra : String)
    (hv : ∀ c ∈ vid.data, goodChar c = true)
    (hex : ∀ c ∈ extra.data, goodChar c = true ∨ c = '/')
    (hocc : occursSub liveSeg (vid.data ++ '/' :: extra.data) = false) :
    extract_video_id (some ("https://youtube.com/live/" ++ vid ++ "/" ++ extra)) =
      .ok (some vid) := by
  have hgv := fun c hc => goodChar_spec (hv c hc)
  have hs : ("https://youtube.com/live/" ++ vid ++ "/" ++ extra).data =
      "https://".data ++
        ("youtube.com".data ++ '/' :: ("live/".data ++ (vid.data ++ '/' :: extra.data))) := by
    simp only [String.data_append]
    simp [List.append_assoc]
  have htail : ∀ c ∈ "live/".data ++ (vid.data ++ '/' :: extra.data),
      32 < c.toNat ∧ c ≠ '#' ∧ c ≠ '?' ∧ c ≠ ';' := by
    intro c hc
    rcases List.mem_append.mp hc with h1 | h1
    · exact (by decide : ∀ c ∈ "live/".data, 32 < c.toNat ∧ c ≠ '#' ∧ c ≠ '?' ∧ c ≠ ';') c h1
    · rcases List.mem_append.mp h1 with h2 | h2
      · exact ⟨(hgv c h2).1, (hgv c h2).2.2.2.2.1, (hgv c h2).2.2.2.1, (hgv c h2).2.2.2.2.2.1⟩
      · rcases List.mem_cons.mp h2 with rfl | h3
        · decide
        · rcases hex c h3 with hg | rfl
          · have := goodChar_spec hg
            exact ⟨this.1, this.2.2.2.2.1, this.2.2.2.1, this.2.2.2.2.2.1⟩
          · decide
  have hparse := pyUrlparse_https "youtube.com".data
    ("live/".data ++ (vid.data ++ '/' :: extra.data)) hs (by decide) htail
  have hne : ("https://youtube.com/live/" ++ vid ++ "/" ++ extra) ≠ "" := by
    intro he
    rw [String.ext_iff, hs] at he
    simp at he
  have hlivene : liveSeg ≠ [] := by decide
  simp only [extract_video_id]
  rw [if_neg hne, hparse]
  have hoccS : occursSub shortHost "youtube.com".data = false := by decide
  have hoccM : occursSub mainHost "youtube.com".data = true := by decide
  have hpathshape : '/' :: ("live/".data ++ (vid.data ++ '/' :: extra.data)) =
      liveSeg ++ (vid.data ++ '/' :: extra.data) := rfl
  simp only [hoccS, hoccM, hpathshape, isPrefixOf_append_self, Bool.false_eq_true,
    if_false, Bool.and_self, if_true]
  rw [splitSep_rec hlivene (findSub_at_self hlivene)]
  rw [splitSep_of_none hlivene (findSub_none_of_nooccur hlivene hocc)]
  rw [show ([[], vid.data ++ '/' :: extra.data] : List (List Char)).getLastD [] =
    vid.data ++ '/' :: extra.data from rfl]
  rw [splitSep_rec (by simp) (findSub_single (fun hm => absurd rfl (hgv '/' hm).2.2.1))]
  rfl

/-- Claim C4 witness: a concrete `/live/<id>/<extra>` URL. -/
theorem C4_live_extract_witness :
    extract_video_id (some ("https://youtube.com/live/" ++ "abc" ++ "/" ++ "more/x")) =
      .ok (some "abc") :=
  C4_live_extract "abc" "more/x" (by decide) (by decide) (by decide)

/-- Claim C7 (confirmed): for an absent or empty URL, and for every URL whose
parsed host contains neither the short-link domain nor the main domain (an
unrecognized host), the extractor returns none. -/
theorem C7_unrecognized_none :
    extract_video_id none = .ok none ∧
    extract_video_id (some "") = .ok none ∧
    ∀ (s : String) (p : ParsedU), pyUrlparse s = .ok p →
      occursSub shortHost p.netloc = false →
      occursSub mainHost p.netloc = false →
      extract_video_id (some s) = .ok none := by
  refine ⟨rfl, rfl, ?_⟩
  intro s p hp h1 h2
  by_cases hse : s = ""
  · subst hse; rfl
  · simp only [extract_video_id]
    rw [if_neg hse, hp]
    simp [h1, h2]

/-- Claim C7 witness: a URL on an unrecognized host. -/
theorem C7_unrecognized_none_witness :
    extract_video_id (some "https://vimeo.com/123") = .ok none :=
  C7_unrecognized_none.2.2 "https://vimeo.com/123"
    ⟨"vimeo.com".data, "/123".data, []⟩ rfl (by decide) (by decide)

theorem pyUrlparse_error_iff (s : String) :
    pyUrlparse s = .error () ↔ bracketBad (urlNetloc s) = true := by
  unfold pyUrlparse urlNetloc
  by_cases hbr : bracketBad (splitNetlocF (splitScheme (sanitizeUrl s.data))).1 = true
  · simp [hbr]
  · simp [hbr]

theorem extract_ok_case (s : String) (hse : s ≠ "") (p : ParsedU)
    (hp : pyUrlparse s = .ok p) :
    extract_video_id (some s) =
      (if occursSub shortHost p.netloc then
        .ok (some (String.mk (pyStripChar '/' p.path)))
       else if occursSub mainHost p.netloc && liveSeg.isPrefixOf p.path then
        .ok (some (String.mk
          ((splitSep ['/'] ((splitSep liveSeg p.path).getLastD [])).headD [])))
       else if occursSub mainHost p.netloc then .ok (vParam p.query)
       else .ok none) := by
  simp only [extract_video_id]
  rw [if_neg hse, hp]

theorem extract_err_case (s : String) (hse : s ≠ "")
    (hp : pyUrlparse s = .error ()) :
    extract_video_id (some s) = .error () := by
  simp only [extract_video_id]
  rw [if_neg hse, hp]

theorem extract_error_iff (s : String) (hse : s ≠ "") :
    extract_video_id (some s) = .error () ↔ pyUrlparse s = .error () := by
  cases hp : pyUrlparse s with
  | error e =>
    cases e
    simp [extract_err_case s hse hp]
  | ok p =>
    rw [extract_ok_case s hse p hp]
    constructor
    · intro he
      split_ifs at he
    · intro hpe
      exact absurd hpe (by simp)

theorem cleanUrlChar_spec {c : Char} (h : cleanUrlChar c = true) :
    c.toNat < 128 ∧ c ≠ '[' ∧ c ≠ ']' := by
  simp only [cleanUrlChar, Bool.and_eq_true, bne_iff_ne, decide_eq_true_eq] at h
  exact ⟨h.1.1, h.1.2, h.2⟩

theorem splitScheme_sublist (l : List Char) : List.Sublist (splitScheme l) l := by
  simp only [splitScheme]
  split
  · exact List.Sublist.refl l
  · split
    · exact List.Sublist.trans (List.drop_sublist 1 _) (List.dropWhile_sublist _)
    · exact List.Sublist.refl l

theorem splitNetlocF_fst_sublist (l : List Char) :
    List.Sublist (splitNetlocF l).1 l := by
  unfold splitNetlocF
  split
  · exact List.Sublist.trans (List.takeWhile_sublist _) (List.drop_sublist 2 l)
  · exact List.nil_sublist l

theorem urlNetloc_subset (s : String) : ∀ c ∈ urlNetloc s, c ∈ s.data := by
  intro c hc
  have h1 : List.Sublist (sanitizeUrl s.data) s.data :=
    List.Sublist.trans (List.filter_sublist _) (List.dropWhile_sublist _)
  have h2 : List.Sublist (urlNetloc s) s.data :=
    List.Sublist.trans (splitNetlocF_fst_sublist _)
      (List.Sublist.trans (splitScheme_sublist _) h1)
  exact h2.subset hc

/-- On an ASCII bracket-free URL the extractor cannot raise: the computed
netloc inherits the URL's characters, so the bracket check cannot fire (and
on this domain no CPython version has any other raise path). -/
theorem extract_ok_of_clean {u : String}
    (h : ∀ c ∈ u.data, cleanUrlChar c = true) :
    ∃ r : Option String, extract_video_id (some u) = .ok r := by
  by_cases hse : u = ""
  · subst hse
    exact ⟨none, rfl⟩
  · have hnb : ∀ x ∈ urlNetloc u, cleanUrlChar x = true :=
      fun x hx => h x (urlNetloc_subset u x hx)
    have hbr : bracketBad (urlNetloc u) = false := by
      unfold bracketBad
      rw [hasChar_false (fun x hx => (cleanUrlChar_spec (hnb x hx)).2.1),
        hasChar_false (fun x hx => (cleanUrlChar_spec (hnb x hx)).2.2)]
      rfl
    cases hx : extract_video_id (some u) with
    | ok r => exact ⟨r, rfl⟩
    | error e =>
      cases e
      rw [extract_error_iff u hse, pyUrlparse_error_iff, hbr] at hx
      exact absurd hx (by simp)

/-- Claim C2 counterexample: the extractor is not "non-empty string or none,
never raising" — `https://youtu.be/` yields the empty string (non-null but
empty), and `https://[` raises urlparse's `ValueError` (Invalid IPv6 URL). -/
theorem C2_total_counterexample :
    extract_video_id (some "https://youtu.be/") = .ok (some "") ∧
    extract_video_id (some "https://[") = .error () := ⟨rfl, rfl⟩

/-- Claim C2 (amended): on every URL made of ASCII characters containing no
square bracket the extractor is total and never raises, returning a
(possibly empty) identifier string or none; it is not total in general — a
URL whose computed authority contains a square bracket without its partner
raises urlparse's ValueError in every CPython version (and, outside the
ASCII bracket-free domain, CPython's NFKC netloc validation and
bracketed-host validation can raise further).  An empty identifier can arise
only from the short-link branch or the /live/ branch; the query-parameter
branch never yields an empty string. -/
theorem C2_total_extract (s : String) :
    ((∀ c ∈ s.data, cleanUrlChar c = true) →
      ∃ r : Option String, extract_video_id (some s) = .ok r) ∧
    (bracketBad (urlNetloc s) = true → extract_video_id (some s) = .error ()) ∧
    (extract_video_id (some s) = .ok (some "") →
      ∃ p, pyUrlparse s = .ok p ∧
        (occursSub shortHost p.netloc = true ∨
          (occursSub mainHost p.netloc && liveSeg.isPrefixOf p.path) = true)) := by
  refine ⟨extract_ok_of_clean, ?_, ?_⟩
  · intro hbb
    by_cases hse : s = ""
    · exact absurd (hse ▸ hbb) (by decide)
    · rw [extract_error_iff s hse, pyUrlparse_error_iff]
      exact hbb
  · intro he
    by_cases hse : s = ""
    · subst hse
      simp [extract_video_id] at he
    · cases hp : pyUrlparse s with
      | error e =>
        cases e
        rw [extract_err_case s hse hp] at he
        simp at he
      | ok p =>
        rw [extract_ok_case s hse p hp] at he
        refine ⟨p, rfl, ?_⟩
        by_cases h1 : occursSub shortHost p.netloc = true
        · exact Or.inl h1
        · right
          by_cases h2 : (occursSub mainHost p.netloc && liveSeg.isPrefixOf p.path) = true
          · exact h2
          · exfalso
            rw [if_neg h1, if_neg h2] at he
            by_cases h3 : occursSub mainHost p.netloc = true
            · rw [if_pos h3] at he
              have hv : vParam p.query = some "" := by simpa using he
              exact vParam_ne_empty hv rfl
            · rw [if_neg h3] at he
              simp at he

/-- Claim C2 witness: the non-raising case at a concrete clean URL and the
raising case at a concrete bracket-mismatched URL, both derived through the
amended theorem. -/
theorem C2_total_extract_witness :
    (∃ r : Option String, extract_video_id (some "https://youtu.be/x") = .ok r) ∧
    extract_video_id (some "https://[") = .error () :=
  ⟨(C2_total_extract "https://youtu.be/x").1 (by decide),
   (C2_total_extract "https://[").2.1 (by decide)⟩

/-- Claim C6 (confirmed): a non-success (non-200) status yields none, and a
successful response with an absent or empty items array yields none — never a
zero-valued stats object. -/
theorem C6_stats_none (r : YTResponse) :
    (r.status_code ≠ 200 → get_youtube_stats r = .ok none) ∧
    (r.status_code = 200 → r.items = none ∨ r.items = some [] →
      get_youtube_stats r = .ok none) := by
  constructor
  · intro hne
    unfold get_youtube_stats
    rw [if_pos hne]
  · intro h200 hempty
    unfold get_youtube_stats
    rw [if_neg (by simp [h200])]
    rcases hempty with h | h <;> rw [h]

/-- Claim C6 witness: a 404 response and a 200 response with empty items. -/
theorem C6_stats_none_witness :
    get_youtube_stats ⟨404, some [⟨[("viewCount", JVal.jstr "5")]⟩]⟩ = .ok none ∧
    get_youtube_stats ⟨200, some []⟩ = .ok none :=
  ⟨(C6_stats_none ⟨404, some [⟨[("viewCount", JVal.jstr "5")]⟩]⟩).1 (by decide),
   (C6_stats_none ⟨200, some []⟩).2 rfl (Or.inr rfl)⟩

theorem batchSlices_nil : batchSlices [] = [] := rfl

theorem batchSlices_cons (l : List UpdateEntry) (h : l ≠ []) :
    batchSlices l = l.take 10 :: batchSlices (l.drop 10) := by
  have hpos : 0 < l.length := List.length_pos.mpr h
  unfold batchSlices
  have hcount : (l.length + 9) / 10 = ((l.drop 10).length + 9) / 10 + 1 := by
    simp only [List.length_drop]
    omega
  rw [hcount, List.range_succ_eq_map]
  simp only [List.map_cons, List.map_map, Nat.mul_zero, List.drop_zero]
  congr 1
  refine List.map_congr_left ?_
  intro a _
  show (l.drop (10 * (a + 1))).take 10 = ((l.drop 10).drop (10 * a)).take 10
  rw [List.drop_drop, show 10 * (a + 1) = 10 * a + 10 from by ring,
    Nat.add_comm (10 * a) 10]

theorem batchSlices_join : ∀ l : List UpdateEntry, (batchSlices l).flatten = l := by
  have H : ∀ n (l : List UpdateEntry), l.length ≤ n → (batchSlices l).flatten = l := by
    intro n
    induction n with
    | zero =>
      intro l hl
      have : l = [] := List.eq_nil_of_length_eq_zero (Nat.le_zero.mp hl)
      subst this
      rfl
    | succ n ih =>
      intro l hl
      by_cases hnil : l = []
      · subst hnil; rfl
      · rw [batchSlices_cons l hnil]
        rw [List.flatten_cons]
        rw [ih (l.drop 10) (by simp only [List.length_drop]; omega)]
        exact List.take_append_drop 10 l
  intro l
  exact H l.length l le_rfl

theorem batchSlices_sizes :
    ∀ (l : List UpdateEntry), ∀ b ∈ batchSlices l, b.length ≤ 10 ∧ b ≠ [] := by
  have H : ∀ n (l : List UpdateEntry), l.length ≤ n →
      ∀ b ∈ batchSlices l, b.length ≤ 10 ∧ b ≠ [] := by
    intro n
    induction n with
    | zero =>
      intro l hl b hb
      have : l = [] := List.eq_nil_of_length_eq_zero (Nat.le_zero.mp hl)
      subst this
      exact absurd hb (by simp [batchSlices_nil])
    | succ n ih =>
      intro l hl b hb
      by_cases hnil : l = []
      · subst hnil; exact absurd hb (by simp [batchSlices_nil])
      · rw [batchSlices_cons l hnil] at hb
        rcases List.mem_cons.mp hb with rfl | hb
        · constructor
          · rw [List.length_take]; omega
          · rw [Ne, List.take_eq_nil_iff]
            simp [hnil]
        · exact ih (l.drop 10) (by simp only [List.length_drop]; omega) b hb
  intro l
  exact H l.length l le_rfl

theorem batchSlices_25 (l : List UpdateEntry) (h25 : l.length = 25) :
    (batchSlices l).map List.length = [10, 10, 5] := by
  have h1 : l ≠ [] := by intro h; subst h; simp at h25
  have h2 : l.drop 10 ≠ [] := by
    intro h
    have := congrArg List.length h
    simp [List.length_drop, h25] at this
  have h3 : (l.drop 10).drop 10 ≠ [] := by
    intro h
    have := congrArg List.length h
    simp [List.length_drop, h25] at this
  have h4 : ((l.drop 10).drop 10).drop 10 = [] := by
    apply List.eq_nil_of_length_eq_zero
    simp [List.length_drop, h25]
  rw [batchSlices_cons l h1, batchSlices_cons _ h2, batchSlices_cons _ h3, h4,
    batchSlices_nil]
  simp [List.length_take, List.length_drop, h25]

theorem writeRequests_eq (l : List UpdateEntry) :
    writeRequests l = batchSlices l := by
  unfold writeRequests writerTrace
  generalize batchSlices l = bs
  induction bs with
  | nil => rfl
  | cons b rest ih =>
    simp only [List.map_cons, List.flatten_cons, List.cons_append,
      List.nil_append, List.filterMap_cons]
    rw [ih]

/-- Claim C5 (confirmed): the Batch Writer partitions its input into
consecutive order-preserving groups of at most 10 (all non-empty), issues
exactly one PATCH request per group in order, issues none for the empty list,
and for 25 entries issues exactly 3 requests of sizes 10, 10, 5. -/
theorem C5_batch_writer :
    writeRequests [] = [] ∧
    (∀ l : List UpdateEntry, (writeRequests l).flatten = l ∧
      ∀ b ∈ writeRequests l, b.length ≤ 10 ∧ b ≠ []) ∧
    (∀ l : List UpdateEntry, l.length = 25 →
      (writeRequests l).map List.length = [10, 10, 5]) := by
  refine ⟨rfl, fun l => ⟨?_, ?_⟩, fun l h => ?_⟩
  · rw [writeRequests_eq]; exact batchSlices_join l
  · rw [writeRequests_eq]; exact fun b hb => batchSlices_sizes l b hb
  · rw [writeRequests_eq]; exact batchSlices_25 l h

/-- Claim C5 witness: 25 concrete entries. -/
theorem C5_batch_writer_witness :
    (writeRequests (List.replicate 25 ⟨"r", 1, 2, 3⟩)).map List.length =
      [10, 10, 5] :=
  C5_batch_writer.2.2 (List.replicate 25 ⟨"r", 1, 2, 3⟩) (by simp)

/-- Claim C9 (confirmed): the pacing sleep happens after every PATCH request,
including the final one — the number of pauses equals the number of requests,
and for a non-empty input the trace ends with a pause. -/
theorem C9_pacing (l : List UpdateEntry) :
    (writerTrace l).countP isSleep = (writeRequests l).length ∧
    (l ≠ [] → (writerTrace l).getLast? = some WEvent.sleep250) := by
  constructor
  · rw [writeRequests_eq]
    unfold writerTrace
    generalize batchSlices l = bs
    induction bs with
    | nil => rfl
    | cons b rest ih =>
      simp only [List.map_cons, List.flatten_cons, List.cons_append,
        List.nil_append, List.countP_cons, List.length_cons, ih]
      simp [isSleep]
  · intro hne
    have hbs : batchSlices l ≠ [] := by
      rw [batchSlices_cons l hne]
      simp
    unfold writerTrace
    generalize batchSlices l = bs at hbs ⊢
    induction bs with
    | nil => exact absurd rfl hbs
    | cons b rest ih =>
      cases rest with
      | nil => rfl
      | cons b2 r2 =>
        rw [List.map_cons, List.flatten_cons]
        rw [List.getLast?_append_of_ne_nil _ (by simp [List.flatten_cons])]
        exact ih (by simp)

/-- Claim C9 witness: a single entry yields one request and one pause, the
trace ending with the pause. -/
theorem C9_pacing_witness :
    (writerTrace [⟨"r", 1, 2, 3⟩]).countP isSleep =
      (writeRequests [⟨"r", 1, 2, 3⟩]).length ∧
    (writerTrace [⟨"r", 1, 2, 3⟩]).getLast? = some WEvent.sleep250 :=
  ⟨(C9_pacing [⟨"r", 1, 2, 3⟩]).1, (C9_pacing [⟨"r", 1, 2, 3⟩]).2 (by simp)⟩

/-- Claim C10 (confirmed): a page whose body lacks a records array contributes
zero records (no exception), and pagination ends both when the offset cursor
is absent and when it is a falsy value such as the empty string. -/
theorem C10_fetch_pagination :
    (∀ (server : Option String → AtPage) (fuel : Nat) (off : Option String)
        (acc : List AtRecord),
      (server off).records = none →
      ((server off).offset = none ∨ (server off).offset = some "") →
      fetchGo server (fuel + 1) off acc = some acc) ∧
    (∀ (server : Option String → AtPage) (fuel : Nat),
      (server none).records = none →
      ((server none).offset = none ∨ (server none).offset = some "") →
      get_airtable_records server (fuel + 1) = some []) := by
  have H : ∀ (server : Option String → AtPage) (fuel : Nat) (off : Option String)
      (acc : List AtRecord),
      (server off).records = none →
      ((server off).offset = none ∨ (server off).offset = some "") →
      fetchGo server (fuel + 1) off acc = some acc := by
    intro server fuel off acc hrec hoff
    rcases hoff with h | h <;> simp [fetchGo, hrec, h]
  exact ⟨H, fun server fuel h1 h2 => H server fuel none [] h1 h2⟩

/-- Claim C10 witness: a server returning a record-less page with an empty
cursor terminates after one request with no records. -/
theorem C10_fetch_pagination_witness :
    get_airtable_records (fun _ => ⟨none, some ""⟩) 3 = some [] :=
  C10_fetch_pagination.2 (fun _ => ⟨none, some ""⟩) 2 rfl (Or.inr rfl)

/-- Claim C1 counterexample: the stated iff fails on the code in two ways.
(a) A record whose URL makes urlparse raise (`https://[`) errors the whole
run instead of being silently skipped.  (b) A record whose URL yields the
non-null — but empty — identifier (`https://youtu.be/`) produces no entry
even against a lookup that succeeds on `""`, although the claim's conditions
(URL present, extractor non-null, lookup succeeds) all hold. -/
theorem C1_invariant_counterexample :
    runUpdates (fun _ => .ok none) [⟨"recA", some "https://["⟩] = .error () ∧
    (runUpdates (fun _ => .ok (some ⟨1, 2, 3⟩))
        [⟨"recB", some "https://youtu.be/"⟩] = .ok [] ∧
      extract_video_id (some "https://youtu.be/") = .ok (some "") ∧
      (fun (_ : String) =>
          (.ok (some ⟨1, 2, 3⟩) : Except Unit (Option EngagementStats))) "" =
        .ok (some ⟨1, 2, 3⟩)) :=
  ⟨rfl, rfl, rfl, rfl⟩

/-- Claim C1 (amended): provided no step can raise — every present URL
consists of ASCII characters without square brackets, the domain on which no
CPython version's urlparse raises, and the lookup does not raise — the run
succeeds and produces exactly one UpdateEntry (with the record's id and the
three stats) per record for which the URL field is present, the extractor
yields a non-null and non-empty identifier, and the lookup succeeds; all
other records are silently skipped.  (Outside that proviso a raising
extractor, e.g. on `https://[`, or a raising lookup aborts the run.) -/
theorem C1_invariant (lookup : String → Except Unit (Option EngagementStats))
    (l : List AtRecord) (h : noRaise lookup l) :
    runUpdates lookup l = .ok (l.filterMap (specEntry lookup)) := by
  induction l with
  | nil => rfl
  | cons r rest ih =>
    have hr := h r (by simp)
    have hrest : noRaise lookup rest := fun r' hm u hu => h r' (by simp [hm]) u hu
    have ihr := ih hrest
    cases hu : r.assetLink with
    | none =>
      have hL : runUpdates lookup (r :: rest) = runUpdates lookup rest := by
        simp [runUpdates, hu]
      have hse : specEntry lookup r = none := by simp [specEntry, hu]
      rw [hL, List.filterMap_cons, hse]
      exact ihr
    | some u =>
      by_cases hue : u = ""
      · subst hue
        have hL : runUpdates lookup (r :: rest) = runUpdates lookup rest := by
          simp [runUpdates, hu]
        have hse : specEntry lookup r = none := by
          simp [specEntry, hu, show extract_video_id (some ("" : String)) = .ok none from rfl]
        rw [hL, List.filterMap_cons, hse]
        exact ihr
      · cases hx : extract_video_id (some u) with
        | error e =>
          cases e
          obtain ⟨r₀, hok⟩ := extract_ok_of_clean (hr u hu).1
          rw [hx] at hok
          exact absurd hok (by simp)
        | ok vo =>
          cases vo with
          | none =>
            have hL : runUpdates lookup (r :: rest) = runUpdates lookup rest := by
              simp [runUpdates, hu, hue, hx]
            have hse : specEntry lookup r = none := by simp [specEntry, hu, hx]
            rw [hL, List.filterMap_cons, hse]
            exact ihr
          | some v =>
            by_cases hv : v = ""
            · subst hv
              have hL : runUpdates lookup (r :: rest) = runUpdates lookup rest := by
                simp [runUpdates, hu, hue, hx]
              have hse : specEntry lookup r = none := by simp [specEntry, hu, hx]
              rw [hL, List.filterMap_cons, hse]
              exact ihr
            · cases hlk : lookup v with
              | error e =>
                cases e
                exact absurd hlk ((hr u hu).2 v hx hv)
              | ok so =>
                cases so with
                | none =>
                  have hL : runUpdates lookup (r :: rest) = runUpdates lookup rest := by
                    simp [runUpdates, hu, hue, hx, hv, hlk]
                  have hse : specEntry lookup r = none := by
                    simp [specEntry, hu, hx, hv, hlk]
                  rw [hL, List.filterMap_cons, hse]
                  exact ihr
                | some s =>
                  have hse : specEntry lookup r =
                      some ⟨r.id, s.views, s.likes, s.comments⟩ := by
                    simp [specEntry, hu, hx, hv, hlk]
                  have hL : runUpdates lookup (r :: rest) =
                      (match runUpdates lookup rest with
                       | .error e => .error e
                       | .ok us => .ok (⟨r.id, s.views, s.likes, s.comments⟩ :: us)) := by
                    simp [runUpdates, hu, hue, hx, hv, hlk]
                  rw [hL, ihr, List.filterMap_cons, hse]

/-- Claim C1 witness: a two-record run — one record succeeding end to end, one
with no URL field — yields exactly the successful record's entry. -/
theorem C1_invariant_witness :
    runUpdates (fun _ => .ok (some ⟨5, 2, 1⟩))
      [⟨"r1", some "https://youtu.be/abc"⟩, ⟨"r2", none⟩] =
      .ok [⟨"r1", 5, 2, 1⟩] := by
  have h : noRaise (fun _ => .ok (some ⟨5, 2, 1⟩))
      [⟨"r1", some "https://youtu.be/abc"⟩, ⟨"r2", none⟩] := by
    intro r hm u hu
    rcases List.mem_cons.mp hm with rfl | hm2
    · obtain rfl : "https://youtu.be/abc" = u := by simpa using hu
      refine ⟨by decide, ?_⟩
      intro v _ _
      simp
    · rcases List.mem_cons.mp hm2 with rfl | hm3
      · simp at hu
      · simp at hm3
  rw [C1_invariant _ _ h]
  rfl
